import Mathlib

/-!
Verification of the `qbusmqttapi` protocol-mapping layer.

The development shallowly embeds the Python sources (`state.py`, `factory.py`,
`const.py`). Python values produced by `json.loads` are modelled by the
inductive `PyVal` (numbers restricted to integers; floats are out of scope).
Python dictionaries are association lists with unique keys, built by
last-write-wins insertion. Python code that can raise is modelled in
`Except PyErr`; the only exceptions relevant to the embedded fragment are
`AttributeError` (attribute access on a value lacking it) and `TypeError`
(item assignment on a non-dictionary).

`PyVal.dumps` models `json.dumps` with its default options: separators
`", "` and `": "`, and `ensure_ascii` escaping of every character outside
printable ASCII, using surrogate pairs beyond the basic plane.
`PyVal.parse` models `json.loads` on the integer fragment of JSON
(no floats, exponents, `NaN` or `Infinity`; lone surrogate escapes are
rejected because Lean strings cannot hold them - `dumps` never emits them).
-/

namespace QbusSpec

/-- A Python value in the image of `json.loads`: `None`, booleans, integers,
strings, lists and dictionaries. -/
inductive PyVal where
  | null
  | bool (b : Bool)
  | num (n : Int)
  | str (s : String)
  | arr (elems : List PyVal)
  | obj (entries : List (String × PyVal))
deriving Repr

/-- `v is None`, the identity test Python applies to `None`. -/
def PyVal.isNull : PyVal → Bool
  | .null => true
  | _ => false

/-- A dictionary or `None`: the shapes of parsed data that state construction
accepts without raising. -/
def PyVal.objOrNull : PyVal → Bool
  | .null => true
  | .obj _ => true
  | _ => false

/-- First value stored under `k`, or `d` when `k` is absent. With unique keys
this is Python's `dict.get(k, d)`. -/
def entryGet (es : List (String × PyVal)) (k : String) (d : PyVal) : PyVal :=
  match es with
  | [] => d
  | (k', v) :: rest => if k' = k then v else entryGet rest k d

/-- Whether key `k` occurs in the entry list. -/
def entryHas (es : List (String × PyVal)) (k : String) : Bool :=
  match es with
  | [] => false
  | (k', _) :: rest => k' = k || entryHas rest k

/-- Python dictionary assignment `d[k] = v`: overwrite in place when the key
exists, append otherwise. -/
def entryPut (es : List (String × PyVal)) (k : String) (v : PyVal) :
    List (String × PyVal) :=
  match es with
  | [] => [(k, v)]
  | (k', v') :: rest => if k' = k then (k', v) :: rest else (k', v') :: entryPut rest k v

/-- Build a Python dictionary from parsed members in order, later duplicates
overwriting earlier ones in place, as `json.loads` does. -/
def entriesOfMembers (ms : List (String × PyVal)) : List (String × PyVal) :=
  ms.foldl (fun acc kv => entryPut acc kv.1 kv.2) []

/-- Keys are pairwise distinct (the invariant of every Python dictionary). -/
def keysDistinct (es : List (String × PyVal)) : Bool :=
  match es with
  | [] => true
  | (k, _) :: rest => !entryHas rest k && keysDistinct rest

mutual
/-- Every dictionary in the tree has pairwise distinct keys; true of every
value a Python program can hold. -/
def PyVal.wf : PyVal → Bool
  | .arr xs => PyVal.wfList xs
  | .obj es => keysDistinct es && PyVal.wfEntries es
  | _ => true
def PyVal.wfList : List PyVal → Bool
  | [] => true
  | x :: xs => x.wf && PyVal.wfList xs
def PyVal.wfEntries : List (String × PyVal) → Bool
  | [] => true
  | (_, v) :: es => v.wf && PyVal.wfEntries es
end

/-- Python truthiness of a value: `None`, `False`, `0`, and empty containers
and strings are falsy. -/
def PyVal.truthy : PyVal → Bool
  | .null => false
  | .bool b => b
  | .num n => n != 0
  | .str s => s ≠ ""
  | .arr xs => !xs.isEmpty
  | .obj es => !es.isEmpty

mutual
/-- Does `.null` occur anywhere in the tree? -/
def PyVal.hasNull : PyVal → Bool
  | .null => true
  | .arr xs => PyVal.hasNullList xs
  | .obj es => PyVal.hasNullEntries es
  | _ => false
def PyVal.hasNullList : List PyVal → Bool
  | [] => false
  | x :: xs => x.hasNull || PyVal.hasNullList xs
def PyVal.hasNullEntries : List (String × PyVal) → Bool
  | [] => false
  | (_, v) :: es => v.hasNull || PyVal.hasNullEntries es
end

/-! ### Printing: the model of `json.dumps` -/

/-- The decimal digit character for `n < 10`. -/
def decDigit (n : Nat) : Char :=
  match n with
  | 0 => '0' | 1 => '1' | 2 => '2' | 3 => '3' | 4 => '4'
  | 5 => '5' | 6 => '6' | 7 => '7' | 8 => '8' | _ => '9'

/-- Decimal digits of `n`, most significant first. -/
def natChars (n : Nat) : List Char :=
  if n < 10 then [decDigit n]
  else natChars (n / 10) ++ [decDigit (n % 10)]
termination_by n
decreasing_by exact Nat.div_lt_self (by omega) (by omega)

/-- Decimal rendering of an integer, as `str(int)` prints it. -/
def intChars (i : Int) : List Char :=
  if i < 0 then '-' :: natChars i.natAbs else natChars i.natAbs

/-- The lowercase hexadecimal digit for `n < 16`, as Python's `\uXXXX`
escapes use. -/
def hexDigit (n : Nat) : Char :=
  match n with
  | 0 => '0' | 1 => '1' | 2 => '2' | 3 => '3' | 4 => '4'
  | 5 => '5' | 6 => '6' | 7 => '7' | 8 => '8' | 9 => '9'
  | 10 => 'a' | 11 => 'b' | 12 => 'c' | 13 => 'd' | 14 => 'e' | _ => 'f'

/-- The four hexadecimal digit characters of a code unit `n < 0x10000`. -/
def hexDigitsOf (n : Nat) : List Char :=
  [hexDigit (n / 4096 % 16), hexDigit (n / 256 % 16),
   hexDigit (n / 16 % 16), hexDigit (n % 16)]

/-- The six-character escape `\uXXXX` for a code unit `n < 0x10000`. -/
def uEscape (n : Nat) : List Char :=
  '\\' :: 'u' :: hexDigitsOf n

/-- How `json.dumps` writes one character of a string with `ensure_ascii`
on: the two-character escapes for quote, backslash and the five named control
characters; `\uXXXX` for every other character outside printable ASCII,
as a surrogate pair when the code point exceeds `0xFFFF`; the character
itself otherwise. -/
def escapeChar (c : Char) : List Char :=
  let n := c.toNat
  if n = 34 then ['\\', '"']
  else if n = 92 then ['\\', '\\']
  else if n = 8 then ['\\', 'b']
  else if n = 9 then ['\\', 't']
  else if n = 10 then ['\\', 'n']
  else if n = 12 then ['\\', 'f']
  else if n = 13 then ['\\', 'r']
  else if n < 32 || 126 < n then
    if n < 65536 then uEscape n
    else uEscape (55296 + (n - 65536) / 1024) ++ uEscape (56320 + (n - 65536) % 1024)
  else [c]

/-- A whole string body, escaped character by character. -/
def escapeList (cs : List Char) : List Char :=
  match cs with
  | [] => []
  | c :: rest => escapeChar c ++ escapeList rest

/-- A rendered string literal including its quotes. -/
def strChars (s : String) : List Char :=
  '"' :: (escapeList s.toList ++ ['"'])

mutual
/-- Render a value the way `json.dumps` does with default separators:
`", "` between items and `": "` after keys. -/
def printVal : PyVal → List Char
  | .num i => intChars i
  | .str s => strChars s
  | .bool false => ['f', 'a', 'l', 's', 'e']
  | .bool true => ['t', 'r', 'u', 'e']
  | .null => ['n', 'u', 'l', 'l']
  | .arr [] => ['[', ']']
  | .arr (x :: xs) => '[' :: (printVal x ++ printRestItems xs)
  | .obj [] => ['{', '}']
  | .obj (m :: ms) => '{' :: (printEntry m ++ printRestEntries ms)
def printRestItems : List PyVal → List Char
  | [] => [']']
  | x :: xs => ',' :: ' ' :: (printVal x ++ printRestItems xs)
def printEntry : String × PyVal → List Char
  | (k, v) => strChars k ++ (':' :: ' ' :: printVal v)
def printRestEntries : List (String × PyVal) → List Char
  | [] => ['}']
  | m :: ms => ',' :: ' ' :: (printEntry m ++ printRestEntries ms)
end

/-- The model of `json.dumps` on already-JSON-shaped values. -/
def PyVal.dumps (v : PyVal) : String :=
  (printVal v).asString

/-! ### Parsing: the model of `json.loads` -/

/-- JSON whitespace. -/
def isJsonWs (c : Char) : Bool :=
  c = ' ' || c = '\t' || c = '\n' || c = '\r'

/-- Drop leading JSON whitespace. -/
def dropWs (cs : List Char) : List Char :=
  match cs with
  | c :: rest => if isJsonWs c then dropWs rest else c :: rest
  | [] => []

/-- ASCII decimal digit test. -/
def isDecDigit (c : Char) : Bool :=
  48 ≤ c.toNat && c.toNat ≤ 57

/-- The value of one hexadecimal digit, either case. -/
def hexNibble (c : Char) : Option Nat :=
  let n := c.toNat
  if 48 ≤ n ∧ n ≤ 57 then some (n - 48)
  else if 97 ≤ n ∧ n ≤ 102 then some (n - 87)
  else if 65 ≤ n ∧ n ≤ 70 then some (n - 55)
  else none

/-- Four hexadecimal digits as one code unit. -/
def hexQuad (a b c d : Char) : Option Nat :=
  match hexNibble a, hexNibble b, hexNibble c, hexNibble d with
  | some x, some y, some z, some w => some (((x * 16 + y) * 16 + z) * 16 + w)
  | _, _, _, _ => none

/-- The character a named escape denotes, as `json.loads` reads it. -/
def namedEscape (e : Char) : Option Char :=
  if e = '"' then some '"'
  else if e = '\\' then some '\\'
  else if e = '/' then some '/'
  else if e = 'b' then some (Char.ofNat 8)
  else if e = 'f' then some (Char.ofNat 12)
  else if e = 'n' then some (Char.ofNat 10)
  else if e = 'r' then some (Char.ofNat 13)
  else if e = 't' then some (Char.ofNat 9)
  else none

/-- Prepend a character to the body of a string-parse result. -/
def consBody (c : Char) (r : Option (List Char × List Char)) :
    Option (List Char × List Char) :=
  match r with
  | some (body, rest) => some (c :: body, rest)
  | none => none

/-- Pair a decoded character with the remaining input. -/
def withRest (rest : List Char) : Option Char → Option (Char × List Char)
  | none => none
  | some ch => some (ch, rest)

/-- Combine a low-surrogate code unit with the pending high surrogate `hi`,
rejecting values outside the low-surrogate range. -/
def readLowVal (hi : Nat) (rest : List Char) : Option Nat → Option (Char × List Char)
  | none => none
  | some m =>
    if 56320 ≤ m ∧ m < 57344 then
      some (Char.ofNat (65536 + (hi - 55296) * 1024 + (m - 56320)), rest)
    else none

/-- After a high-surrogate escape `hi`, read the low-surrogate escape that
must follow and combine the pair into one code point, as `json.loads` does. -/
def readLowSurrogate (hi : Nat) (cs : List Char) : Option (Char × List Char) :=
  match cs with
  | e2 :: u2 :: a :: b :: c :: d :: rest =>
    if e2 = '\\' ∧ u2 = 'u' then readLowVal hi rest (hexQuad a b c d)
    else none
  | _ => none

/-- Interpret one `\uXXXX` code unit: a high surrogate awaits its partner,
a lone low surrogate is rejected, anything else is the character itself. -/
def readUVal (rest : List Char) : Option Nat → Option (Char × List Char)
  | none => none
  | some n =>
    if 55296 ≤ n ∧ n < 56320 then readLowSurrogate n rest
    else if 56320 ≤ n ∧ n < 57344 then none
    else some (Char.ofNat n, rest)

/-- Read the four hex digits of a `\uXXXX` escape and resolve surrogates. -/
def readU (cs : List Char) : Option (Char × List Char) :=
  match cs with
  | a :: b :: c2 :: d :: rest2 => readUVal rest2 (hexQuad a b c2 d)
  | _ => none

/-- Read one escape sequence after the backslash: the character it denotes
and the remaining input. Escapes follow `json.loads`: the named escapes,
`\uXXXX`, and surrogate-pair recombination. Lone surrogate escapes are
rejected, since a Lean `String` cannot hold them; `dumps` never produces
them. -/
def readEscape (cs : List Char) : Option (Char × List Char) :=
  match cs with
  | [] => none
  | e :: rest =>
    if e = 'u' then readU rest
    else withRest rest (namedEscape e)

/-- Continue a string parse after a decoded escape. -/
def escCont (f : List Char → Option (List Char × List Char)) :
    Option (Char × List Char) → Option (List Char × List Char)
  | none => none
  | some (ch, rest') => consBody ch (f rest')

/-- Parse a string body after the opening quote, returning the characters
and the remainder after the closing quote; fuel-bounded, consuming one unit
per source character, so any fuel above the input length suffices.
Unescaped control characters are rejected (strict mode). -/
def parseStrBody : Nat → List Char → Option (List Char × List Char)
  | 0, _ => none
  | _ + 1, [] => none
  | fuel + 1, c :: rest =>
    if c = '"' then some ([], rest)
    else if c = '\\' then escCont (parseStrBody fuel) (readEscape rest)
    else if c.toNat < 32 then none
    else consBody c (parseStrBody fuel rest)

/-- Consume a run of decimal digits, extending the accumulator. -/
def digitRun (acc : Nat) (cs : List Char) : Nat × List Char :=
  match cs with
  | c :: rest =>
    if isDecDigit c then digitRun (acc * 10 + (c.toNat - 48)) rest else (acc, c :: rest)
  | [] => (acc, [])

/-- A zero digit ahead of another digit: the one integer form JSON forbids. -/
def zeroThenDigit (c : Char) (rest : List Char) : Bool :=
  c = '0' && (match rest with | d :: _ => isDecDigit d | [] => false)

/-- Parse an unsigned JSON integer: at least one digit, and no leading zero
ahead of further digits. -/
def parseNat (cs : List Char) : Option (Nat × List Char) :=
  match cs with
  | c :: rest =>
    if isDecDigit c then
      if zeroThenDigit c rest then none
      else some (digitRun (c.toNat - 48) rest)
    else none
  | [] => none

mutual
/-- Parse one JSON value (integer fragment), fuel-bounded. Objects are built
with dictionary insertion, so a later duplicate key overwrites an earlier one
in place, exactly as `json.loads` builds its `dict`. -/
def parseVal : Nat → List Char → Option (PyVal × List Char)
  | 0, _ => none
  | fuel + 1, cs =>
    match dropWs cs with
    | 'n' :: 'u' :: 'l' :: 'l' :: rest => some (.null, rest)
    | 't' :: 'r' :: 'u' :: 'e' :: rest => some (.bool true, rest)
    | 'f' :: 'a' :: 'l' :: 's' :: 'e' :: rest => some (.bool false, rest)
    | '"' :: rest =>
      match parseStrBody (rest.length + 1) rest with
      | some (body, r) => some (.str body.asString, r)
      | none => none
    | '[' :: rest =>
      (match dropWs rest with
       | ']' :: r => some (.arr [], r)
       | cs' =>
         match parseItems fuel cs' with
         | some (xs, r) => some (.arr xs, r)
         | none => none)
    | '{' :: rest =>
      (match dropWs rest with
       | '}' :: r => some (.obj [], r)
       | cs' =>
         match parseMembers fuel cs' with
         | some (ms, r) => some (.obj (entriesOfMembers ms), r)
         | none => none)
    | '-' :: rest =>
      (match parseNat rest with
       | some (n, r) => some (.num (-(n : Int)), r)
       | none => none)
    | c :: rest =>
      if isDecDigit c then
        match parseNat (c :: rest) with
        | some (n, r) => some (.num (n : Int), r)
        | none => none
      else none
    | [] => none
/-- Parse one or more comma-separated array items up to the closing bracket. -/
def parseItems : Nat → List Char → Option (List PyVal × List Char)
  | 0, _ => none
  | fuel + 1, cs =>
    match parseVal fuel cs with
    | none => none
    | some (v, r) =>
      match dropWs r with
      | ',' :: r' =>
        (match parseItems fuel r' with
         | some (vs, r'') => some (v :: vs, r'')
         | none => none)
      | ']' :: r' => some ([v], r')
      | _ => none
/-- Parse one or more `"key": value` members up to the closing brace. -/
def parseMembers : Nat → List Char → Option (List (String × PyVal) × List Char)
  | 0, _ => none
  | fuel + 1, cs =>
    match dropWs cs with
    | '"' :: rest =>
      (match parseStrBody (rest.length + 1) rest with
       | none => none
       | some (key, r1) =>
         match dropWs r1 with
         | ':' :: r2 =>
           (match parseVal fuel r2 with
            | none => none
            | some (v, r3) =>
              match dropWs r3 with
              | ',' :: r4 =>
                (match parseMembers fuel r4 with
                 | some (ms, r5) => some ((key.asString, v) :: ms, r5)
                 | none => none)
              | '}' :: r4 => some ([(key.asString, v)], r4)
              | _ => none)
         | _ => none)
    | _ => none
end

/-- Input that cannot extend a decimal number: empty, or headed by a
non-digit. Every character that can follow a printed number inside printed
JSON qualifies. -/
def numDelim (cs : List Char) : Bool :=
  match cs with
  | [] => true
  | c :: _ => !isDecDigit c

/-- The model of `json.loads` (on the integer fragment): a `none` result is
a raised `ValueError`. -/
def PyVal.parse (s : String) : Option PyVal :=
  match parseVal (s.toList.length + 1) s.toList with
  | some (v, rest) => if (dropWs rest).isEmpty then some v else none
  | none => none

/-! ### The embedded library: `const.py` -/

def TOPIC_PREFIX : String := "cloudapp/QBUSMQTTGW"

def KEY_OUTPUT_ACTION : String := "action"

def KEY_OUTPUT_ID : String := "id"

def KEY_OUTPUT_PROPERTIES : String := "properties"

def KEY_OUTPUT_TYPE : String := "type"

def KEY_PROPERTIES_AUTHKEY : String := "authKey"

def KEY_PROPERTIES_CURRENT_TEMPERATURE : String := "currTemp"

def KEY_PROPERTIES_REGIME : String := "currRegime"

def KEY_PROPERTIES_SET_TEMPERATURE : String := "setTemp"

def KEY_PROPERTIES_SHUTTER_POSITION : String := "shutterPosition"

def KEY_PROPERTIES_SLAT_POSITION : String := "slatPosition"

def KEY_PROPERTIES_STATE : String := "state"

def KEY_PROPERTIES_VALUE : String := "value"

/-! ### The embedded library: `state.py` -/

/-- The exceptions the embedded fragment can raise: attribute access on a
value without that attribute, and item assignment on a non-dictionary. -/
inductive PyErr where
  | attributeError
  | typeError
deriving Repr, DecidableEq

/-- The `StrEnum` members of `state.py`, as the strings they are. -/
def StateType.ACTION : String := "action"

def StateAction.ACTIVATE : String := "activate"

/-- `QbusMqttState` instance attributes. Each holds an arbitrary Python
value because `__init__` copies whatever the data mapping holds, with no
type check; `.null` models `None`. -/
structure QbusMqttState where
  id : PyVal
  type : PyVal
  action : PyVal
  properties : PyVal
deriving Repr

/-- The `data is not None` branch of `QbusMqttState.__init__`: four
`data.get` calls. A non-dictionary `data` has no `get` attribute, so the
call raises `AttributeError`. -/
def QbusMqttState.fromData : PyVal → Except PyErr QbusMqttState
  | .obj es =>
    .ok ⟨entryGet es KEY_OUTPUT_ID (.str ""), entryGet es KEY_OUTPUT_TYPE (.str ""),
      entryGet es KEY_OUTPUT_ACTION .null, entryGet es KEY_OUTPUT_PROPERTIES .null⟩
  | _ => .error .attributeError

/-- The keyword-argument tail of `__init__`: each keyword that is not `None`
overwrites the attribute. -/
def QbusMqttState.applyKw (st : QbusMqttState) (i ty act : Option String) :
    QbusMqttState :=
  ⟨match i with | some v => .str v | none => st.id,
   match ty with | some v => .str v | none => st.type,
   match act with | some v => .str v | none => st.action,
   st.properties⟩

/-- `QbusMqttState.__init__(data, *, id, type, action)`: defaults, then the
mapping when `data is not None`, then the keyword overrides. -/
def QbusMqttState.init (data : PyVal) (i ty act : Option String) :
    Except PyErr QbusMqttState :=
  if data.isNull then .ok (QbusMqttState.applyKw ⟨.str "", .str "", .null, .null⟩ i ty act)
  else
    match QbusMqttState.fromData data with
    | .ok st => .ok (st.applyKw i ty act)
    | .error e => .error e

/-- `read_property`: `self.properties.get(key, default) if self.properties
else default`. A truthy non-dictionary `properties` has no `get`. -/
def QbusMqttState.read_property (st : QbusMqttState) (k : String) (d : PyVal) :
    Except PyErr PyVal :=
  if st.properties.truthy then
    match st.properties with
    | .obj es => .ok (entryGet es k d)
    | _ => .error .attributeError
  else .ok d

/-- `write_property`: initialize `properties` to `{}` when it is `None`,
then item-assign; assignment into a non-dictionary raises `TypeError`. -/
def QbusMqttState.write_property (st : QbusMqttState) (k : String) (v : PyVal) :
    Except PyErr QbusMqttState :=
  match (if st.properties.isNull then PyVal.obj [] else st.properties) with
  | .obj es => .ok ⟨st.id, st.type, st.action, .obj (entryPut es k v)⟩
  | _ => .error .typeError

/-- The lookup-with-default that `read_property` computes whenever it does
not raise: the stored value when `properties` is a dictionary holding the
key, the default otherwise. -/
def QbusMqttState.storedOr (st : QbusMqttState) (k : String) (d : PyVal) : PyVal :=
  match st.properties with
  | .obj es => entryGet es k d
  | _ => d

/-- The states on which every accessor is exception-free: `properties` is a
dictionary or falsy (absent, in particular). -/
def QbusMqttState.propsReadable (st : QbusMqttState) : Bool :=
  match st.properties with
  | .obj _ => true
  | p => !p.truthy

/-- `QbusMqttOnOffState(data, *, id, type)` delegates to the base
constructor with no `action` keyword; the other variants do the same. -/
def QbusMqttOnOffState.init (data : PyVal) (i ty : Option String) :
    Except PyErr QbusMqttState :=
  QbusMqttState.init data i ty none

def QbusMqttOnOffState.read_value (st : QbusMqttState) : Except PyErr PyVal :=
  st.read_property KEY_PROPERTIES_VALUE (.bool false)

def QbusMqttAnalogState.init (data : PyVal) (i ty : Option String) :
    Except PyErr QbusMqttState :=
  QbusMqttState.init data i ty none

def QbusMqttAnalogState.read_percentage (st : QbusMqttState) : Except PyErr PyVal :=
  st.read_property KEY_PROPERTIES_VALUE (.num 0)

def QbusMqttShutterState.init (data : PyVal) (i ty : Option String) :
    Except PyErr QbusMqttState :=
  QbusMqttState.init data i ty none

def QbusMqttShutterState.read_state (st : QbusMqttState) : Except PyErr PyVal :=
  st.read_property KEY_PROPERTIES_STATE .null

def QbusMqttShutterState.read_position (st : QbusMqttState) : Except PyErr PyVal :=
  st.read_property KEY_PROPERTIES_SHUTTER_POSITION .null

def QbusMqttShutterState.read_slat_position (st : QbusMqttState) : Except PyErr PyVal :=
  st.read_property KEY_PROPERTIES_SLAT_POSITION .null

def QbusMqttThermoState.init (data : PyVal) (i ty : Option String) :
    Except PyErr QbusMqttState :=
  QbusMqttState.init data i ty none

def QbusMqttThermoState.read_current_temperature (st : QbusMqttState) :
    Except PyErr PyVal :=
  st.read_property KEY_PROPERTIES_CURRENT_TEMPERATURE .null

def QbusMqttThermoState.read_set_temperature (st : QbusMqttState) :
    Except PyErr PyVal :=
  st.read_property KEY_PROPERTIES_SET_TEMPERATURE .null

def QbusMqttThermoState.read_regime (st : QbusMqttState) : Except PyErr PyVal :=
  st.read_property KEY_PROPERTIES_REGIME .null

/-! ### The embedded library: `factory.py` -/

/-- `QbusMqttRequestMessage`: a topic and a payload. -/
structure QbusMqttRequestMessage where
  topic : String
  payload : String
deriving Repr, DecidableEq

/-- Drop the entries whose value is `None`: the dictionary comprehension of
`IgnoreNoneJsonEncoder.default` over an instance `__dict__`. -/
def dropNoneEntries (es : List (String × PyVal)) : List (String × PyVal) :=
  match es with
  | [] => []
  | (k, v) :: rest =>
    if v.isNull then dropNoneEntries rest else (k, v) :: dropNoneEntries rest

/-- What `json.dumps(state, cls=IgnoreNoneJsonEncoder)` serializes: the
instance `__dict__` in attribute-creation order (`id`, `type`, `action`,
`properties`), filtered of `None`-valued attributes. The filter applies only
at this level: the encoder's `default` is never called for the dictionary
stored in `properties`, whose `None` values are emitted as `null`. -/
def QbusMqttState.encoded (st : QbusMqttState) : PyVal :=
  .obj (dropNoneEntries
    [("id", st.id), ("type", st.type), ("action", st.action), ("properties", st.properties)])

/-- `QbusMqttMessageFactory.serialize` applied to a state. -/
def serialize (st : QbusMqttState) : String :=
  PyVal.dumps st.encoded

/-- `QbusMqttMessageFactory.deserialize`, generic over the requested type's
construction from the parsed value, exactly as the Python method is generic
in `state_cls`. A `none` payload models a `None` argument. Only the
`ValueError` of `json.loads` is caught; an exception raised by construction
propagates. -/
def deserialize {α : Type} (construct : PyVal → Except PyErr α) (payload : Option String) :
    Except PyErr (Option α) :=
  match payload with
  | none => .ok none
  | some s =>
    match PyVal.parse s with
    | none => .ok none
    | some data =>
      match construct data with
      | .ok v => .ok (some v)
      | .error e => .error e

/-- `deserialize(QbusMqttState, payload)`: construction passes the parsed
value positionally, with no keywords. -/
def deserializeState (payload : Option String) : Except PyErr (Option QbusMqttState) :=
  deserialize (fun data => QbusMqttState.init data none none none) payload

/-- `QbusMqttTopicFactory` methods: pure string templates. -/
def get_get_config_topic (pfx : String) : String :=
  pfx ++ "/getConfig"

def get_config_topic (pfx : String) : String :=
  pfx ++ "/config"

def get_get_state_topic (pfx : String) : String :=
  pfx ++ "/getState"

def get_device_state_topic (device_id pfx : String) : String :=
  pfx ++ "/" ++ device_id ++ "/state"

def get_device_command_topic (device_id pfx : String) : String :=
  pfx ++ "/" ++ device_id ++ "/setState"

def get_output_command_topic (device_id entity_id pfx : String) : String :=
  pfx ++ "/" ++ device_id ++ "/" ++ entity_id ++ "/setState"

def get_output_state_topic (device_id entity_id pfx : String) : String :=
  pfx ++ "/" ++ device_id ++ "/" ++ entity_id ++ "/state"

/-- Modelled from the spec: `QbusMqttDevice` lives in `discovery.py`, which
is not among the sources; the factory uses only its `id`, a string. -/
structure QbusMqttDevice where
  id : String

/-- `create_device_activate_request`: a state with `type=action`,
`action=activate` and the fixed `authKey` property, on the device command
topic. -/
def create_device_activate_request (device : QbusMqttDevice) (pfx : String) :
    Except PyErr QbusMqttRequestMessage :=
  match QbusMqttState.init .null (some device.id) (some StateType.ACTION)
      (some StateAction.ACTIVATE) with
  | .error e => .error e
  | .ok st =>
    match st.write_property KEY_PROPERTIES_AUTHKEY (.str "ubielite") with
    | .error e => .error e
    | .ok st' => .ok ⟨get_device_command_topic device.id pfx, serialize st'⟩

/-- Modelled from the spec: `QbusDiscovery` lives in `discovery.py`, which
is not among the sources. The spec requires of it only a `devices` field
holding the sequence found at the `devices` key of the parsed document
(empty when absent); the device schema itself is out of scope, so devices
stay raw parsed values. Like the state classes, construction reads the
mapping, so a non-dictionary document raises `AttributeError`. -/
structure QbusDiscovery where
  devices : List PyVal
deriving Repr

/-- Modelled from the spec: construction of `QbusDiscovery` from the parsed
document. -/
def QbusDiscovery.fromData : PyVal → Except PyErr QbusDiscovery
  | .obj es =>
    match entryGet es "devices" (.arr []) with
    | .arr xs => .ok ⟨xs⟩
    | _ => .ok ⟨[]⟩
  | _ => .error .attributeError

/-- `deserialize(QbusDiscovery, payload)`. -/
def deserializeDiscovery (payload : Option String) : Except PyErr (Option QbusDiscovery) :=
  deserialize QbusDiscovery.fromData payload

/-- `parse_discovery`: deserialize, then reject a discovery whose device
list is empty. -/
def parse_discovery (payload : Option String) : Except PyErr (Option QbusDiscovery) :=
  match deserializeDiscovery payload with
  | .error e => .error e
  | .ok discovery =>
    match discovery with
    | some d => if d.devices.length = 0 then .ok none else .ok (some d)
    | none => .ok none

/-! ## Round-trip infrastructure: decimal digits -/

theorem decDigit_toNat (k : Nat) (h : k < 10) : (decDigit k).toNat = 48 + k := by
  interval_cases k <;> rfl

theorem isDecDigit_decDigit (k : Nat) (h : k < 10) : isDecDigit (decDigit k) = true := by
  interval_cases k <;> rfl

theorem decDigit_eq_zero_iff (k : Nat) (h : k < 10) : decDigit k = '0' ↔ k = 0 := by
  interval_cases k <;> simp <;> decide

theorem natChars_unfold (n : Nat) :
    natChars n = (if n < 10 then [] else natChars (n / 10)) ++ [decDigit (n % 10)] := by
  rw [natChars.eq_def]
  by_cases h : n < 10
  · simp [h, Nat.mod_eq_of_lt h]
  · simp [h]

theorem natChars_head (n : Nat) :
    ∃ c t, natChars n = c :: t ∧ isDecDigit c = true ∧ (c = '0' → n = 0) := by
  induction n using Nat.strong_induction_on with
  | _ n ih =>
    rw [natChars_unfold]
    by_cases h : n < 10
    · rw [if_pos h, List.nil_append, Nat.mod_eq_of_lt h]
      exact ⟨decDigit n, [], rfl, isDecDigit_decDigit n h, (decDigit_eq_zero_iff n h).mp⟩
    · obtain ⟨c, t, hct, hdig, hzero⟩ := ih (n / 10) (Nat.div_lt_self (by omega) (by omega))
      rw [if_neg h, hct, List.cons_append]
      refine ⟨c, t ++ [decDigit (n % 10)], rfl, hdig, fun hc => ?_⟩
      have := hzero hc
      omega

theorem digitRun_stop (acc : Nat) (cs : List Char) (h : numDelim cs = true) :
    digitRun acc cs = (acc, cs) := by
  cases cs with
  | nil => rfl
  | cons c t =>
    simp only [numDelim, Bool.not_eq_true'] at h
    simp [digitRun, h]

theorem digitRun_natChars (n : Nat) :
    ∃ k, 0 < k ∧ n < 10 ^ k ∧
      ∀ acc rest, digitRun acc (natChars n ++ rest) = digitRun (acc * 10 ^ k + n) rest := by
  induction n using Nat.strong_induction_on with
  | _ n ih =>
    by_cases h : n < 10
    · refine ⟨1, by omega, by omega, fun acc rest => ?_⟩
      rw [natChars.eq_def, if_pos h, List.cons_append, List.nil_append]
      simp only [digitRun, isDecDigit_decDigit n h, if_true, decDigit_toNat n h]
      have : acc * 10 + (48 + n - 48) = acc * 10 ^ 1 + n := by omega
      rw [this]
    · obtain ⟨k, hk, hlt, hrec⟩ := ih (n / 10) (Nat.div_lt_self (by omega) (by omega))
      have hmod : n % 10 < 10 := Nat.mod_lt _ (by omega)
      refine ⟨k + 1, by omega, ?_, fun acc rest => ?_⟩
      · have hpow : 10 ^ (k + 1) = 10 * 10 ^ k := by ring
        omega
      · rw [natChars_unfold, if_neg h, List.append_assoc, List.singleton_append, hrec]
        simp only [digitRun, isDecDigit_decDigit _ hmod, if_true, decDigit_toNat _ hmod]
        have harith : (acc * 10 ^ k + n / 10) * 10 + (48 + n % 10 - 48)
            = acc * 10 ^ (k + 1) + n := by
          have hpow : 10 ^ (k + 1) = 10 ^ k * 10 := by ring
          have hdm : n / 10 * 10 + n % 10 = n := by omega
          calc (acc * 10 ^ k + n / 10) * 10 + (48 + n % 10 - 48)
              = acc * (10 ^ k * 10) + (n / 10 * 10 + n % 10) := by ring_nf; omega
            _ = acc * 10 ^ (k + 1) + n := by rw [hpow, hdm]
        rw [harith]

theorem parseNat_natChars (n : Nat) (rest : List Char) (h : numDelim rest = true) :
    parseNat (natChars n ++ rest) = some (n, rest) := by
  obtain ⟨c, t, hct, hdig, hzero⟩ := natChars_head n
  obtain ⟨k, _, _, hrec⟩ := digitRun_natChars n
  have hrun : digitRun (c.toNat - 48) (t ++ rest) = (n, rest) := by
    have h1 : digitRun 0 (natChars n ++ rest) = (n, rest) := by
      rw [hrec]
      simpa using digitRun_stop n rest h
    rw [hct, List.cons_append] at h1
    simpa [digitRun, hdig] using h1
  have hz : zeroThenDigit c (t ++ rest) = false := by
    by_cases hc : c = '0'
    · have hn0 : n = 0 := hzero hc
      have ht : t = [] := by
        have := hct
        rw [hn0] at this
        rw [natChars_unfold] at this
        simp at this
        exact this.2
      subst ht
      cases rest with
      | nil => simp [zeroThenDigit]
      | cons d ds =>
        simp only [numDelim, Bool.not_eq_true'] at h
        simp [zeroThenDigit, h]
    · simp [zeroThenDigit, hc]
  rw [hct, List.cons_append, parseNat, if_pos hdig, if_neg (by simp [hz]), hrun]

/-! ## Round-trip infrastructure: string escapes -/

theorem hexNibble_hexDigit (k : Nat) (h : k < 16) : hexNibble (hexDigit k) = some k := by
  interval_cases k <;> decide

theorem hexQuad_digits (n : Nat) (h : n < 65536) :
    hexQuad (hexDigit (n / 4096 % 16)) (hexDigit (n / 256 % 16))
      (hexDigit (n / 16 % 16)) (hexDigit (n % 16)) = some n := by
  have h16 : ∀ m : Nat, m % 16 < 16 := fun m => Nat.mod_lt _ (by omega)
  rw [hexQuad, hexNibble_hexDigit _ (h16 _), hexNibble_hexDigit _ (h16 _),
    hexNibble_hexDigit _ (h16 _), hexNibble_hexDigit _ (h16 _)]
  have harith : ((n / 4096 % 16 * 16 + n / 256 % 16) * 16 + n / 16 % 16) * 16 + n % 16 = n := by
    omega
  simp [harith]

theorem char_toNat_ofNat {n : Nat} (h : n.isValidChar) : (Char.ofNat n).toNat = n := by
  unfold Char.ofNat
  rw [dif_pos h]
  unfold Char.ofNatAux Char.toNat
  simp [UInt32.toNat]

theorem char_valid_toNat (c : Char) :
    c.toNat < 55296 ∨ (57343 < c.toNat ∧ c.toNat < 1114112) := by
  rcases c.valid with h | ⟨h1, h2⟩
  · exact Or.inl (UInt32.toNat_lt_of_lt (by decide) h)
  · exact Or.inr ⟨UInt32.lt_toNat_of_lt (by decide) h1, UInt32.toNat_lt_of_lt (by decide) h2⟩

theorem char_eq_of_toNat {c : Char} {n : Nat} (h : c.toNat = n) : c = Char.ofNat n := by
  rw [← h, Char.ofNat_toNat]

theorem char_eq_of_toNat_eq {c d : Char} (h : c.toNat = d.toNat) : c = d :=
  Char.ext (UInt32.ext h)

theorem readEscape_named (e ch : Char) (he : namedEscape e = some ch)
    (hu : e ≠ 'u') (rest : List Char) :
    readEscape (e :: rest) = some (ch, rest) := by
  rw [readEscape, if_neg hu, he, withRest]

theorem readU_digits (n : Nat) (hlt : n < 65536)
    (hns : ¬ (55296 ≤ n ∧ n < 56320)) (hns' : ¬ (56320 ≤ n ∧ n < 57344))
    (cs : List Char) :
    readU (hexDigitsOf n ++ cs) = some (Char.ofNat n, cs) := by
  rw [hexDigitsOf]
  simp only [List.cons_append, List.nil_append]
  rw [readU, hexQuad_digits n hlt, readUVal, if_neg hns, if_neg hns']

theorem readEscape_u (n : Nat) (hlt : n < 65536)
    (hns : ¬ (55296 ≤ n ∧ n < 56320)) (hns' : ¬ (56320 ≤ n ∧ n < 57344))
    (cs : List Char) :
    readEscape ('u' :: (hexDigitsOf n ++ cs)) = some (Char.ofNat n, cs) := by
  rw [readEscape, if_pos rfl, readU_digits n hlt hns hns']

theorem readLowSurrogate_digits (hi lo : Nat) (hlo : 56320 ≤ lo ∧ lo < 57344)
    (cs : List Char) :
    readLowSurrogate hi ('\\' :: 'u' :: (hexDigitsOf lo ++ cs)) =
      some (Char.ofNat (65536 + (hi - 55296) * 1024 + (lo - 56320)), cs) := by
  rw [hexDigitsOf]
  simp only [List.cons_append, List.nil_append]
  rw [readLowSurrogate, if_pos ⟨rfl, rfl⟩, hexQuad_digits lo (by omega), readLowVal,
    if_pos hlo]

theorem readEscape_uPair (n : Nat) (h1 : 65536 ≤ n) (h2 : n < 1114112)
    (cs : List Char) :
    readEscape ('u' :: (hexDigitsOf (55296 + (n - 65536) / 1024) ++
        ('\\' :: 'u' :: (hexDigitsOf (56320 + (n - 65536) % 1024) ++ cs)))) =
      some (Char.ofNat n, cs) := by
  have hdivlt : (n - 65536) / 1024 < 1024 := by omega
  have hmodlt : (n - 65536) % 1024 < 1024 := Nat.mod_lt _ (by omega)
  rw [readEscape, if_pos rfl, hexDigitsOf]
  simp only [List.cons_append, List.nil_append]
  rw [readU, hexQuad_digits _ (by omega), readUVal, if_pos (by omega)]
  rw [readLowSurrogate_digits _ _ ⟨by omega, by omega⟩]
  have harith : 65536 + (55296 + (n - 65536) / 1024 - 55296) * 1024 +
      (56320 + (n - 65536) % 1024 - 56320) = n := by omega
  rw [harith]

theorem parseStrBody_backslash (fuel : Nat) (rest : List Char) :
    parseStrBody (fuel + 1) ('\\' :: rest) =
      escCont (parseStrBody fuel) (readEscape rest) := by
  rw [parseStrBody, if_neg (by decide : ¬ ('\\' = '"')), if_pos rfl]

theorem parseStrBody_escapeChar (fuel : Nat) (c : Char) (rest : List Char) :
    parseStrBody (fuel + 1) (escapeChar c ++ rest) =
      consBody c (parseStrBody fuel rest) := by
  by_cases h34 : c.toNat = 34
  · have hc : c = '"' := char_eq_of_toNat_eq (by rw [h34]; decide)
    subst hc
    rw [show escapeChar '"' = ['\\', '"'] from by decide, List.cons_append,
      List.cons_append, List.nil_append, parseStrBody_backslash,
      readEscape_named '"' '"' (by decide) (by decide), escCont]
  by_cases h92 : c.toNat = 92
  · have hc : c = '\\' := char_eq_of_toNat_eq (by rw [h92]; decide)
    subst hc
    rw [show escapeChar '\\' = ['\\', '\\'] from by decide, List.cons_append,
      List.cons_append, List.nil_append, parseStrBody_backslash,
      readEscape_named '\\' '\\' (by decide) (by decide), escCont]
  by_cases h8 : c.toNat = 8
  · rw [char_eq_of_toNat h8]
    rw [show escapeChar (Char.ofNat 8) = ['\\', 'b'] from by decide, List.cons_append,
      List.cons_append, List.nil_append, parseStrBody_backslash,
      readEscape_named 'b' (Char.ofNat 8) (by decide) (by decide), escCont]
  by_cases h9 : c.toNat = 9
  · rw [char_eq_of_toNat h9]
    rw [show escapeChar (Char.ofNat 9) = ['\\', 't'] from by decide, List.cons_append,
      List.cons_append, List.nil_append, parseStrBody_backslash,
      readEscape_named 't' (Char.ofNat 9) (by decide) (by decide), escCont]
  by_cases h10 : c.toNat = 10
  · rw [char_eq_of_toNat h10]
    rw [show escapeChar (Char.ofNat 10) = ['\\', 'n'] from by decide, List.cons_append,
      List.cons_append, List.nil_append, parseStrBody_backslash,
      readEscape_named 'n' (Char.ofNat 10) (by decide) (by decide), escCont]
  by_cases h12 : c.toNat = 12
  · rw [char_eq_of_toNat h12]
    rw [show escapeChar (Char.ofNat 12) = ['\\', 'f'] from by decide, List.cons_append,
      List.cons_append, List.nil_append, parseStrBody_backslash,
      readEscape_named 'f' (Char.ofNat 12) (by decide) (by decide), escCont]
  by_cases h13 : c.toNat = 13
  · rw [char_eq_of_toNat h13]
    rw [show escapeChar (Char.ofNat 13) = ['\\', 'r'] from by decide, List.cons_append,
      List.cons_append, List.nil_append, parseStrBody_backslash,
      readEscape_named 'r' (Char.ofNat 13) (by decide) (by decide), escCont]
  by_cases hesc : c.toNat < 32 || 126 < c.toNat
  · have hval := char_valid_toNat c
    by_cases hbmp : c.toNat < 65536
    · have hesc' : escapeChar c = uEscape c.toNat := by
        simp only [escapeChar]
        rw [if_neg h34, if_neg h92, if_neg h8, if_neg h9, if_neg h10, if_neg h12,
          if_neg h13, if_pos hesc, if_pos hbmp]
      rw [hesc', uEscape, List.cons_append, List.cons_append,
        parseStrBody_backslash,
        readEscape_u c.toNat hbmp (by omega) (by omega), Char.ofNat_toNat,
        escCont]
    · have hesc' : escapeChar c =
          uEscape (55296 + (c.toNat - 65536) / 1024) ++
            uEscape (56320 + (c.toNat - 65536) % 1024) := by
        simp only [escapeChar]
        rw [if_neg h34, if_neg h92, if_neg h8, if_neg h9, if_neg h10, if_neg h12,
          if_neg h13, if_pos hesc, if_neg hbmp]
      rw [hesc', uEscape, uEscape]
      simp only [List.cons_append, List.append_assoc]
      rw [parseStrBody_backslash,
        readEscape_uPair c.toNat (by omega) (by omega), Char.ofNat_toNat, escCont]
  · have hesc' : escapeChar c = [c] := by
      simp only [escapeChar]
      rw [if_neg h34, if_neg h92, if_neg h8, if_neg h9, if_neg h10, if_neg h12,
        if_neg h13, if_neg hesc]
    have hq : c ≠ '"' := fun h => h34 (by rw [h]; rfl)
    have hb : c ≠ '\\' := fun h => h92 (by rw [h]; rfl)
    have hctl : ¬ c.toNat < 32 := by
      simp only [Bool.or_eq_true, decide_eq_true_eq, not_or] at hesc
      exact hesc.1
    rw [hesc', List.cons_append, List.nil_append, parseStrBody]
    rw [if_neg hq, if_neg hb, if_neg hctl]

theorem parseStrBody_escapeList (s rest : List Char) :
    ∀ fuel, s.length < fuel →
      parseStrBody fuel (escapeList s ++ '"' :: rest) = some (s, rest) := by
  induction s with
  | nil =>
    intro fuel hf
    obtain ⟨f, rfl⟩ : ∃ f, fuel = f + 1 := ⟨fuel - 1, by omega⟩
    rw [escapeList, List.nil_append, parseStrBody, if_pos rfl]
  | cons c t ih =>
    intro fuel hf
    obtain ⟨f, rfl⟩ : ∃ f, fuel = f + 1 := ⟨fuel - 1, by omega⟩
    rw [escapeList, List.append_assoc, parseStrBody_escapeChar,
      ih f (by simp only [List.length_cons] at hf; omega), consBody]

theorem escapeChar_length_pos (c : Char) : 1 ≤ (escapeChar c).length := by
  simp only [escapeChar]
  split_ifs <;> simp [uEscape, hexDigitsOf]

theorem escapeList_length (s : List Char) : s.length ≤ (escapeList s).length := by
  induction s with
  | nil => simp [escapeList]
  | cons c t ih =>
    rw [escapeList]
    simp only [List.length_append, List.length_cons]
    have := escapeChar_length_pos c
    omega

theorem parseStrBody_printed (s rest : List Char) :
    parseStrBody ((escapeList s ++ '"' :: rest).length + 1)
      (escapeList s ++ '"' :: rest) = some (s, rest) := by
  apply parseStrBody_escapeList
  have := escapeList_length s
  simp only [List.length_append, List.length_cons]
  omega

/-! ## Round-trip infrastructure: whitespace, heads, lengths -/

theorem dropWs_id_of_head {c : Char} (t : List Char) (h : isJsonWs c = false) :
    dropWs (c :: t) = c :: t := by
  rw [dropWs, h]
  simp

theorem dropWs_space (t : List Char) : dropWs (' ' :: t) = dropWs t := by
  rw [dropWs]
  simp [isJsonWs]

theorem digit_not_special {c : Char} (h : isDecDigit c = true) :
    isJsonWs c = false ∧ c ≠ ']' ∧ c ≠ '}' := by
  refine ⟨?_, ?_, ?_⟩
  · cases hw : isJsonWs c
    · rfl
    · exfalso
      simp only [isJsonWs, Bool.or_eq_true, decide_eq_true_eq] at hw
      rcases hw with ((he | he) | he) | he <;> (subst he; exact absurd h (by decide))
  · intro he
    subst he
    exact absurd h (by decide)
  · intro he
    subst he
    exact absurd h (by decide)

theorem printVal_head (v : PyVal) :
    ∃ c t, printVal v = c :: t ∧ isJsonWs c = false ∧ c ≠ ']' ∧ c ≠ '}' := by
  cases v with
  | num i =>
    by_cases hneg : i < 0
    · refine ⟨'-', natChars i.natAbs, ?_, by decide, by decide, by decide⟩
      simp [printVal, intChars, hneg]
    · obtain ⟨c, t, hct, hdig, _⟩ := natChars_head i.natAbs
      obtain ⟨hws, hbr, hbc⟩ := digit_not_special hdig
      refine ⟨c, t, ?_, hws, hbr, hbc⟩
      simp [printVal, intChars, hneg, hct]
  | bool b => cases b <;> refine ⟨_, _, rfl, ?_, ?_, ?_⟩ <;> decide
  | arr xs => cases xs <;> refine ⟨'[', _, rfl, ?_, ?_, ?_⟩ <;> decide
  | obj es => cases es <;> refine ⟨'{', _, rfl, ?_, ?_, ?_⟩ <;> decide
  | null => refine ⟨'n', _, rfl, ?_, ?_, ?_⟩ <;> decide
  | str s => refine ⟨'"', _, rfl, ?_, ?_, ?_⟩ <;> decide

theorem dropWs_printVal (v : PyVal) (x : List Char) :
    dropWs (printVal v ++ x) = printVal v ++ x := by
  obtain ⟨c, t, hct, hws, _, _⟩ := printVal_head v
  rw [hct, List.cons_append]
  exact dropWs_id_of_head _ hws

theorem printVal_length_pos (v : PyVal) : 1 ≤ (printVal v).length := by
  obtain ⟨c, t, hct, _, _, _⟩ := printVal_head v
  rw [hct]
  simp

theorem printRestItems_length_pos (xs : List PyVal) :
    1 ≤ (printRestItems xs).length := by
  cases xs <;> simp [printRestItems]

theorem printRestEntries_length_pos (ms : List (String × PyVal)) :
    1 ≤ (printRestEntries ms).length := by
  cases ms <;> simp [printRestEntries]

theorem strChars_length (s : String) : 2 ≤ (strChars s).length := by
  simp [strChars]

theorem numDelim_printRestItems (xs : List PyVal) (x : List Char) :
    numDelim (printRestItems xs ++ x) = true := by
  cases xs <;> simp [printRestItems, numDelim, isDecDigit]

theorem numDelim_printRestEntries (ms : List (String × PyVal)) (x : List Char) :
    numDelim (printRestEntries ms ++ x) = true := by
  cases ms <;> simp [printRestEntries, numDelim, isDecDigit]

/-! ## Round-trip infrastructure: parser case lemmas -/

theorem parseVal_null_case (f : Nat) (cs rest : List Char)
    (h : dropWs cs = 'n' :: 'u' :: 'l' :: 'l' :: rest) :
    parseVal (f + 1) cs = some (.null, rest) := by
  simp only [parseVal, h]

theorem parseVal_true_case (f : Nat) (cs rest : List Char)
    (h : dropWs cs = 't' :: 'r' :: 'u' :: 'e' :: rest) :
    parseVal (f + 1) cs = some (.bool true, rest) := by
  simp only [parseVal, h]

theorem parseVal_false_case (f : Nat) (cs rest : List Char)
    (h : dropWs cs = 'f' :: 'a' :: 'l' :: 's' :: 'e' :: rest) :
    parseVal (f + 1) cs = some (.bool false, rest) := by
  simp only [parseVal, h]

theorem parseVal_str_case (f : Nat) (cs rest r body : List Char)
    (h : dropWs cs = '"' :: rest)
    (hp : parseStrBody (rest.length + 1) rest = some (body, r)) :
    parseVal (f + 1) cs = some (.str body.asString, r) := by
  simp only [parseVal, h, hp]

theorem parseVal_arrEmpty_case (f : Nat) (cs rest r : List Char)
    (h : dropWs cs = '[' :: rest) (h2 : dropWs rest = ']' :: r) :
    parseVal (f + 1) cs = some (.arr [], r) := by
  simp only [parseVal, h, h2]

theorem parseVal_arr_case (f : Nat) (cs rest : List Char) (c1 : Char)
    (t1 : List Char) (xs : List PyVal) (r : List Char)
    (h : dropWs cs = '[' :: rest) (h2 : dropWs rest = c1 :: t1) (hne : c1 ≠ ']')
    (hi : parseItems f (c1 :: t1) = some (xs, r)) :
    parseVal (f + 1) cs = some (.arr xs, r) := by
  simp only [parseVal, h, h2]
  split <;> simp_all

theorem parseVal_objEmpty_case (f : Nat) (cs rest r : List Char)
    (h : dropWs cs = '{' :: rest) (h2 : dropWs rest = '}' :: r) :
    parseVal (f + 1) cs = some (.obj [], r) := by
  simp only [parseVal, h, h2]

theorem parseVal_obj_case (f : Nat) (cs rest : List Char) (c1 : Char)
    (t1 : List Char) (ms : List (String × PyVal)) (r : List Char)
    (h : dropWs cs = '{' :: rest) (h2 : dropWs rest = c1 :: t1) (hne : c1 ≠ '}')
    (hm : parseMembers f (c1 :: t1) = some (ms, r)) :
    parseVal (f + 1) cs = some (.obj (entriesOfMembers ms), r) := by
  simp only [parseVal, h, h2]
  split <;> simp_all

theorem parseVal_neg_case (f : Nat) (cs rest r : List Char) (n : Nat)
    (h : dropWs cs = '-' :: rest) (hp : parseNat rest = some (n, r)) :
    parseVal (f + 1) cs = some (.num (-(n : Int)), r) := by
  simp only [parseVal, h, hp]

theorem parseVal_digit_case (f : Nat) (cs : List Char) (c0 : Char) (t : List Char)
    (n : Nat) (r : List Char) (hd : isDecDigit c0 = true)
    (h : dropWs cs = c0 :: t) (hp : parseNat (c0 :: t) = some (n, r)) :
    parseVal (f + 1) cs = some (.num (n : Int), r) := by
  have hn : c0 ≠ 'n' := fun he => by subst he; exact absurd hd (by decide)
  have ht : c0 ≠ 't' := fun he => by subst he; exact absurd hd (by decide)
  have hf : c0 ≠ 'f' := fun he => by subst he; exact absurd hd (by decide)
  have hq : c0 ≠ '"' := fun he => by subst he; exact absurd hd (by decide)
  have hbk : c0 ≠ '[' := fun he => by subst he; exact absurd hd (by decide)
  have hbc : c0 ≠ '{' := fun he => by subst he; exact absurd hd (by decide)
  have hm : c0 ≠ '-' := fun he => by subst he; exact absurd hd (by decide)
  simp only [parseVal, h]
  split <;> simp_all

theorem parseItems_last (f : Nat) (cs : List Char) (v : PyVal) (r r' : List Char)
    (hv : parseVal f cs = some (v, r)) (h2 : dropWs r = ']' :: r') :
    parseItems (f + 1) cs = some ([v], r') := by
  simp only [parseItems, hv, h2]

theorem parseItems_cons (f : Nat) (cs : List Char) (v : PyVal)
    (r r' : List Char) (vs : List PyVal) (r'' : List Char)
    (hv : parseVal f cs = some (v, r)) (h2 : dropWs r = ',' :: r')
    (hrec : parseItems f r' = some (vs, r'')) :
    parseItems (f + 1) cs = some (v :: vs, r'') := by
  simp only [parseItems, hv, h2, hrec]

theorem parseMembers_last (f : Nat) (cs rest : List Char) (key : List Char)
    (r1 r2 : List Char) (v : PyVal) (r3 r4 : List Char)
    (h : dropWs cs = '"' :: rest)
    (hk : parseStrBody (rest.length + 1) rest = some (key, r1))
    (h1 : dropWs r1 = ':' :: r2)
    (hv : parseVal f r2 = some (v, r3))
    (h3 : dropWs r3 = '}' :: r4) :
    parseMembers (f + 1) cs = some ([(key.asString, v)], r4) := by
  simp only [parseMembers, h, hk, h1, hv, h3]

theorem parseMembers_cons (f : Nat) (cs rest : List Char) (key : List Char)
    (r1 r2 : List Char) (v : PyVal) (r3 r4 : List Char)
    (ms : List (String × PyVal)) (r5 : List Char)
    (h : dropWs cs = '"' :: rest)
    (hk : parseStrBody (rest.length + 1) rest = some (key, r1))
    (h1 : dropWs r1 = ':' :: r2)
    (hv : parseVal f r2 = some (v, r3))
    (h3 : dropWs r3 = ',' :: r4)
    (hrec : parseMembers f r4 = some (ms, r5)) :
    parseMembers (f + 1) cs = some ((key.asString, v) :: ms, r5) := by
  simp only [parseMembers, h, hk, h1, hv, h3, hrec]

theorem parseVal_num (f : Nat) (i : Int) (cs rest : List Char)
    (hr : numDelim rest = true)
    (hcs : dropWs cs = intChars i ++ rest) :
    parseVal (f + 1) cs = some (.num i, rest) := by
  by_cases hneg : i < 0
  · have hic : intChars i = '-' :: natChars i.natAbs := by simp [intChars, hneg]
    rw [hic, List.cons_append] at hcs
    have hp := parseNat_natChars i.natAbs rest hr
    have hval : -((i.natAbs : Int)) = i := by omega
    rw [← hval]
    exact parseVal_neg_case f cs _ rest i.natAbs hcs hp
  · obtain ⟨c, t, hct, hdig, _⟩ := natChars_head i.natAbs
    have hic : intChars i = natChars i.natAbs := by simp [intChars, hneg]
    rw [hic, hct, List.cons_append] at hcs
    have hp := parseNat_natChars i.natAbs rest hr
    rw [hct, List.cons_append] at hp
    have hval : ((i.natAbs : Int)) = i := by omega
    rw [← hval]
    exact parseVal_digit_case f cs c (t ++ rest) i.natAbs rest hdig hcs hp

/-! ## Round-trip infrastructure: dictionary building -/

theorem entryHas_append (es fs : List (String × PyVal)) (k : String) :
    entryHas (es ++ fs) k = (entryHas es k || entryHas fs k) := by
  induction es with
  | nil => simp [entryHas]
  | cons e rest ih =>
    obtain ⟨k', v'⟩ := e
    simp [entryHas, ih, Bool.or_assoc]

theorem entryHas_of_mem {es : List (String × PyVal)} {k : String} {v : PyVal}
    (h : (k, v) ∈ es) : entryHas es k = true := by
  induction es with
  | nil => simp at h
  | cons e rest ih =>
    obtain ⟨k', v'⟩ := e
    rcases List.mem_cons.mp h with he | he
    · rw [entryHas]
      have : k' = k := by cases he; rfl
      simp [this]
    · rw [entryHas, ih he]
      simp

theorem entryPut_fresh (es : List (String × PyVal)) (k : String) (v : PyVal)
    (h : entryHas es k = false) : entryPut es k v = es ++ [(k, v)] := by
  induction es with
  | nil => rfl
  | cons e rest ih =>
    obtain ⟨k', v'⟩ := e
    simp only [entryHas, Bool.or_eq_false_iff, decide_eq_false_iff_not] at h
    rw [entryPut, if_neg h.1, ih h.2]
    simp

theorem foldl_entryPut (ms : List (String × PyVal)) :
    ∀ acc, keysDistinct ms = true →
      (∀ kv ∈ ms, entryHas acc kv.1 = false) →
      ms.foldl (fun acc kv => entryPut acc kv.1 kv.2) acc = acc ++ ms := by
  induction ms with
  | nil =>
    intro acc _ _
    simp
  | cons m rest ih =>
    intro acc hdist hacc
    obtain ⟨k, v⟩ := m
    simp only [keysDistinct, Bool.and_eq_true, Bool.not_eq_true'] at hdist
    simp only [List.foldl_cons]
    rw [entryPut_fresh acc k v (hacc (k, v) (by simp))]
    rw [ih (acc ++ [(k, v)]) hdist.2 ?fresh]
    · simp
    case fresh =>
      intro kv hkv
      rw [entryHas_append]
      simp only [Bool.or_eq_false_iff]
      refine ⟨hacc kv (by simp [hkv]), ?_⟩
      rw [entryHas]
      simp only [entryHas, Bool.or_eq_false_iff, decide_eq_false_iff_not]
      refine ⟨?_, by trivial⟩
      intro hk
      obtain ⟨k1, v1⟩ := kv
      rw [hk] at hdist
      exact absurd (entryHas_of_mem hkv) (by simp [hdist.1])

theorem entriesOfMembers_distinct (ms : List (String × PyVal))
    (h : keysDistinct ms = true) : entriesOfMembers ms = ms := by
  rw [entriesOfMembers, foldl_entryPut ms [] h (fun kv _ => rfl)]
  simp

/-! ## The round trip: parsing printed output -/

theorem printEntry_shape (k : String) (v : PyVal) (x : List Char) :
    printEntry (k, v) ++ x
      = '"' :: (escapeList k.toList ++ ('"' :: (':' :: ' ' :: (printVal v ++ x)))) := by
  simp [printEntry, strChars, List.append_assoc]

mutual
theorem rtVal : ∀ (v : PyVal) (fuel : Nat) (rest cs : List Char),
    PyVal.wf v = true → (printVal v).length < fuel → numDelim rest = true →
    dropWs cs = printVal v ++ rest →
    parseVal fuel cs = some (v, rest)
  | .null, fuel, rest, cs, _, hf, _, hcs => by
    obtain ⟨f, rfl⟩ : ∃ f, fuel = f + 1 := ⟨fuel - 1, by omega⟩
    rw [show printVal .null = ['n', 'u', 'l', 'l'] from rfl] at hcs
    exact parseVal_null_case f cs rest hcs
  | .bool true, fuel, rest, cs, _, hf, _, hcs => by
    obtain ⟨f, rfl⟩ : ∃ f, fuel = f + 1 := ⟨fuel - 1, by omega⟩
    rw [show printVal (.bool true) = ['t', 'r', 'u', 'e'] from rfl] at hcs
    exact parseVal_true_case f cs rest hcs
  | .bool false, fuel, rest, cs, _, hf, _, hcs => by
    obtain ⟨f, rfl⟩ : ∃ f, fuel = f + 1 := ⟨fuel - 1, by omega⟩
    rw [show printVal (.bool false) = ['f', 'a', 'l', 's', 'e'] from rfl] at hcs
    exact parseVal_false_case f cs rest hcs
  | .num i, fuel, rest, cs, _, hf, hr, hcs => by
    obtain ⟨f, rfl⟩ : ∃ f, fuel = f + 1 := ⟨fuel - 1, by omega⟩
    rw [show printVal (.num i) = intChars i from rfl] at hcs
    exact parseVal_num f i cs rest hr hcs
  | .str s, fuel, rest, cs, _, hf, _, hcs => by
    obtain ⟨f, rfl⟩ : ∃ f, fuel = f + 1 := ⟨fuel - 1, by omega⟩
    rw [show printVal (.str s) = '"' :: (escapeList s.toList ++ ['"']) from rfl,
      List.cons_append, List.append_assoc, List.singleton_append] at hcs
    have hp := parseStrBody_printed s.toList rest
    have hres := parseVal_str_case f cs _ rest s.toList hcs hp
    rw [hres]
    exact rfl
  | .arr [], fuel, rest, cs, _, hf, _, hcs => by
    obtain ⟨f, rfl⟩ : ∃ f, fuel = f + 1 := ⟨fuel - 1, by omega⟩
    rw [show printVal (.arr []) = ['[', ']'] from rfl] at hcs
    exact parseVal_arrEmpty_case f cs (']' :: rest) rest hcs
      (dropWs_id_of_head _ (by decide))
  | .arr (x :: xs), fuel, rest, cs, hwf, hf, _, hcs => by
    obtain ⟨f, rfl⟩ : ∃ f, fuel = f + 1 := ⟨fuel - 1, by omega⟩
    obtain ⟨c1, t1, hhead, hws1, hbr1, _⟩ := printVal_head x
    rw [show printVal (.arr (x :: xs)) = '[' :: (printVal x ++ printRestItems xs)
      from rfl, List.cons_append] at hcs
    have hwf' : PyVal.wfList (x :: xs) = true := hwf
    have hlen : (printVal x ++ printRestItems xs).length + 1 ≤ f := by
      rw [show printVal (.arr (x :: xs)) = '[' :: (printVal x ++ printRestItems xs)
        from rfl] at hf
      simp only [List.length_cons] at hf
      omega
    have harr : printVal x ++ printRestItems xs ++ rest
        = printVal x ++ (printRestItems xs ++ rest) := by
      simp [List.append_assoc]
    have hitems : parseItems f (printVal x ++ (printRestItems xs ++ rest))
        = some (x :: xs, rest) :=
      rtItems x xs f rest _ hwf' hlen (dropWs_printVal x _)
    refine parseVal_arr_case f cs (printVal x ++ printRestItems xs ++ rest) c1
      (t1 ++ (printRestItems xs ++ rest)) (x :: xs) rest hcs ?_ hbr1 ?_
    · rw [harr, hhead, List.cons_append]
      exact dropWs_id_of_head _ hws1
    · rw [show c1 :: (t1 ++ (printRestItems xs ++ rest))
        = printVal x ++ (printRestItems xs ++ rest) from by rw [hhead, List.cons_append]]
      exact hitems
  | .obj [], fuel, rest, cs, _, hf, _, hcs => by
    obtain ⟨f, rfl⟩ : ∃ f, fuel = f + 1 := ⟨fuel - 1, by omega⟩
    rw [show printVal (.obj []) = ['{', '}'] from rfl] at hcs
    exact parseVal_objEmpty_case f cs ('}' :: rest) rest hcs
      (dropWs_id_of_head _ (by decide))
  | .obj ((k0, v0) :: ms), fuel, rest, cs, hwf, hf, _, hcs => by
    obtain ⟨f, rfl⟩ : ∃ f, fuel = f + 1 := ⟨fuel - 1, by omega⟩
    rw [show printVal (.obj ((k0, v0) :: ms))
      = '{' :: (printEntry (k0, v0) ++ printRestEntries ms)
      from rfl, List.cons_append] at hcs
    have hwfo : keysDistinct ((k0, v0) :: ms) = true ∧
        PyVal.wfEntries ((k0, v0) :: ms) = true := by
      have : (keysDistinct ((k0, v0) :: ms) && PyVal.wfEntries ((k0, v0) :: ms)) = true := hwf
      simpa using this
    have hlen : (printEntry (k0, v0) ++ printRestEntries ms).length + 1 ≤ f := by
      rw [show printVal (.obj ((k0, v0) :: ms))
        = '{' :: (printEntry (k0, v0) ++ printRestEntries ms)
        from rfl] at hf
      simp only [List.length_cons] at hf
      omega
    have hmembs : parseMembers f (printEntry (k0, v0) ++ (printRestEntries ms ++ rest))
        = some ((k0, v0) :: ms, rest) := by
      refine rtMembers (k0, v0) ms f rest _ hwfo.2 hlen ?_
      rw [printEntry_shape]
      exact dropWs_id_of_head _ (by decide)
    have hres := parseVal_obj_case f cs
      (printEntry (k0, v0) ++ printRestEntries ms ++ rest)
      '"' (escapeList k0.toList ++ ('"' :: (':' :: ' ' :: (printVal v0 ++
        (printRestEntries ms ++ rest))))) ((k0, v0) :: ms) rest hcs
      (by rw [List.append_assoc, printEntry_shape]
          exact dropWs_id_of_head _ (by decide))
      (by decide)
      (by rw [show ('"' :: (escapeList k0.toList ++ ('"' :: (':' :: ' ' :: (printVal v0 ++
            (printRestEntries ms ++ rest))))))
            = printEntry (k0, v0) ++ (printRestEntries ms ++ rest)
            from (printEntry_shape k0 v0 _).symm]
          exact hmembs)
    rw [entriesOfMembers_distinct _ hwfo.1] at hres
    exact hres
termination_by v _ _ _ _ _ _ _ => sizeOf v

theorem rtItems : ∀ (x : PyVal) (xs : List PyVal) (fuel : Nat) (rest cs : List Char),
    PyVal.wfList (x :: xs) = true →
    (printVal x ++ printRestItems xs).length + 1 ≤ fuel →
    dropWs cs = printVal x ++ (printRestItems xs ++ rest) →
    parseItems fuel cs = some (x :: xs, rest)
  | x, [], fuel, rest, cs, hwf, hflen, hcs => by
    obtain ⟨f, rfl⟩ : ∃ f, fuel = f + 1 := ⟨fuel - 1, by omega⟩
    have hwfx : PyVal.wf x = true := by
      have h : (PyVal.wf x && PyVal.wfList []) = true := hwf
      simp only [Bool.and_eq_true] at h
      exact h.1
    have hflen' : (printVal x).length < f := by
      have h1 := printRestItems_length_pos ([] : List PyVal)
      simp only [List.length_append] at hflen
      omega
    have hv : parseVal f cs = some (x, ']' :: rest) := by
      refine rtVal x f (']' :: rest) cs hwfx hflen' rfl ?_
      rw [hcs]
      exact rfl
    exact parseItems_last f cs x (']' :: rest) rest hv
      (dropWs_id_of_head _ (by decide))
  | x, y :: ys, fuel, rest, cs, hwf, hflen, hcs => by
    obtain ⟨f, rfl⟩ : ∃ f, fuel = f + 1 := ⟨fuel - 1, by omega⟩
    have hwfand : PyVal.wf x = true ∧ PyVal.wfList (y :: ys) = true := by
      have h : (PyVal.wf x && PyVal.wfList (y :: ys)) = true := hwf
      simpa using h
    have hwfx := hwfand.1
    have hwfrest := hwfand.2
    have hsh : printRestItems (y :: ys)
        = ',' :: ' ' :: (printVal y ++ printRestItems ys) := rfl
    have hlens : (printVal y ++ printRestItems ys).length + 1 ≤ f ∧
        (printVal x).length < f := by
      rw [hsh] at hflen
      simp only [List.length_append, List.length_cons] at hflen ⊢
      omega
    have hv : parseVal f cs
        = some (x, ',' :: ' ' :: (printVal y ++ (printRestItems ys ++ rest))) := by
      refine rtVal x f _ cs hwfx hlens.2 rfl ?_
      rw [hcs, hsh]
      simp [List.append_assoc]
    have hrec : parseItems f (' ' :: (printVal y ++ (printRestItems ys ++ rest)))
        = some (y :: ys, rest) := by
      refine rtItems y ys f rest _ hwfrest hlens.1 ?_
      rw [dropWs_space]
      exact dropWs_printVal y _
    exact parseItems_cons f cs x _ _ (y :: ys) rest hv
      (dropWs_id_of_head _ (by decide)) hrec
termination_by x xs _ _ _ _ _ _ => sizeOf x + sizeOf xs

theorem rtMembers : ∀ (m : String × PyVal) (ms : List (String × PyVal))
    (fuel : Nat) (rest cs : List Char),
    PyVal.wfEntries (m :: ms) = true →
    (printEntry m ++ printRestEntries ms).length + 1 ≤ fuel →
    dropWs cs = printEntry m ++ (printRestEntries ms ++ rest) →
    parseMembers fuel cs = some (m :: ms, rest)
  | (k, v), [], fuel, rest, cs, hwf, hflen, hcs => by
    obtain ⟨f, rfl⟩ : ∃ f, fuel = f + 1 := ⟨fuel - 1, by omega⟩
    have hwfand : PyVal.wf v = true ∧ PyVal.wfEntries [] = true := by
      have h : (PyVal.wf v && PyVal.wfEntries []) = true := hwf
      simpa using h
    have hcs' : dropWs cs = '"' :: (escapeList k.toList
        ++ ('"' :: (':' :: ' ' :: (printVal v ++ (printRestEntries [] ++ rest))))) := by
      rw [hcs, printEntry_shape]
    have hk := parseStrBody_printed k.toList
      (':' :: ' ' :: (printVal v ++ (printRestEntries [] ++ rest)))
    have hlenv : (printVal v).length < f := by
      have h1 := strChars_length k
      have hpe : printEntry (k, v) = strChars k ++ (':' :: ' ' :: printVal v) := rfl
      rw [hpe] at hflen
      simp only [List.length_append, List.length_cons] at hflen
      omega
    have hv : parseVal f (' ' :: (printVal v ++ (printRestEntries [] ++ rest)))
        = some (v, printRestEntries [] ++ rest) := by
      refine rtVal v f _ _ hwfand.1 hlenv (numDelim_printRestEntries [] rest) ?_
      rw [dropWs_space]
      exact dropWs_printVal v _
    have hres := parseMembers_last f cs _ k.toList _
      (' ' :: (printVal v ++ (printRestEntries [] ++ rest))) v
      (printRestEntries [] ++ rest) rest hcs' hk
      (dropWs_id_of_head _ (by decide)) hv
      (by rw [show printRestEntries [] ++ rest = '}' :: rest from rfl]
          exact dropWs_id_of_head _ (by decide))
    rw [hres]
    exact rfl
  | (k, v), (k2, v2) :: ms2, fuel, rest, cs, hwf, hflen, hcs => by
    obtain ⟨f, rfl⟩ : ∃ f, fuel = f + 1 := ⟨fuel - 1, by omega⟩
    have hwfand : PyVal.wf v = true ∧ PyVal.wfEntries ((k2, v2) :: ms2) = true := by
      have h : (PyVal.wf v && PyVal.wfEntries ((k2, v2) :: ms2)) = true := hwf
      simpa using h
    have hcs' : dropWs cs = '"' :: (escapeList k.toList
        ++ ('"' :: (':' :: ' ' :: (printVal v
          ++ (printRestEntries ((k2, v2) :: ms2) ++ rest))))) := by
      rw [hcs, printEntry_shape]
    have hk := parseStrBody_printed k.toList
      (':' :: ' ' :: (printVal v ++ (printRestEntries ((k2, v2) :: ms2) ++ rest)))
    have hlenv : (printVal v).length < f := by
      have h1 := strChars_length k
      have h2 := printRestEntries_length_pos ((k2, v2) :: ms2)
      have hpe : printEntry (k, v) = strChars k ++ (':' :: ' ' :: printVal v) := rfl
      rw [hpe] at hflen
      simp only [List.length_append, List.length_cons] at hflen
      omega
    have hv : parseVal f (' ' :: (printVal v
        ++ (printRestEntries ((k2, v2) :: ms2) ++ rest)))
        = some (v, printRestEntries ((k2, v2) :: ms2) ++ rest) := by
      refine rtVal v f _ _ hwfand.1 hlenv
        (numDelim_printRestEntries ((k2, v2) :: ms2) rest) ?_
      rw [dropWs_space]
      exact dropWs_printVal v _
    have hsh2 : printRestEntries ((k2, v2) :: ms2) ++ rest
        = ',' :: ' ' :: (printEntry (k2, v2) ++ (printRestEntries ms2 ++ rest)) := by
      rw [show printRestEntries ((k2, v2) :: ms2)
        = ',' :: ' ' :: (printEntry (k2, v2) ++ printRestEntries ms2) from rfl]
      simp [List.append_assoc]
    have hlen2 : (printEntry (k2, v2) ++ printRestEntries ms2).length + 1 ≤ f := by
      have hpe : printEntry (k, v) = strChars k ++ (':' :: ' ' :: printVal v) := rfl
      have hpr : printRestEntries ((k2, v2) :: ms2)
          = ',' :: ' ' :: (printEntry (k2, v2) ++ printRestEntries ms2) := rfl
      rw [hpe, hpr] at hflen
      simp only [List.length_append, List.length_cons] at hflen ⊢
      omega
    have hrec : parseMembers f (' ' :: (printEntry (k2, v2)
        ++ (printRestEntries ms2 ++ rest))) = some ((k2, v2) :: ms2, rest) := by
      refine rtMembers (k2, v2) ms2 f rest _ hwfand.2 hlen2 ?_
      rw [dropWs_space, printEntry_shape]
      exact dropWs_id_of_head _ (by decide)
    have hres := parseMembers_cons f cs _ k.toList _
      (' ' :: (printVal v ++ (printRestEntries ((k2, v2) :: ms2) ++ rest))) v
      (printRestEntries ((k2, v2) :: ms2) ++ rest)
      (' ' :: (printEntry (k2, v2) ++ (printRestEntries ms2 ++ rest)))
      ((k2, v2) :: ms2) rest hcs' hk
      (dropWs_id_of_head _ (by decide)) hv
      (by rw [hsh2]; exact dropWs_id_of_head _ (by decide)) hrec
    rw [hres]
    exact rfl
termination_by m ms _ _ _ _ _ _ => sizeOf m + sizeOf ms
end

/-- The codec round trip: printing any well-formed value (every dictionary
with distinct keys, as Python dictionaries are) and parsing it back yields
the value exactly. -/
theorem parse_dumps (v : PyVal) (hwf : PyVal.wf v = true) :
    PyVal.parse (PyVal.dumps v) = some v := by
  have htl : (PyVal.dumps v).toList = printVal v := rfl
  rw [PyVal.parse, htl]
  have hcs : dropWs (printVal v) = printVal v ++ [] := by
    have h := dropWs_printVal v []
    simpa using h
  rw [rtVal v ((printVal v).length + 1) [] (printVal v) hwf (by omega) rfl hcs]
  simp [dropWs]

/-! ## Model-level helper lemmas -/

theorem entryGet_of_not_has (es : List (String × PyVal)) (k : String) (d : PyVal)
    (h : entryHas es k = false) : entryGet es k d = d := by
  induction es with
  | nil => rfl
  | cons e rest ih =>
    obtain ⟨k', v'⟩ := e
    simp only [entryHas, Bool.or_eq_false_iff, decide_eq_false_iff_not] at h
    rw [entryGet, if_neg h.1, ih h.2]

theorem hasNull_false_isNull {v : PyVal} (h : v.hasNull = false) :
    v.isNull = false := by
  cases v <;> first | rfl | (exact absurd h (by simp [PyVal.hasNull]))

theorem read_property_of_readable (st : QbusMqttState) (k : String) (d : PyVal)
    (hp : st.propsReadable = true) :
    st.read_property k d = .ok (st.storedOr k d) := by
  obtain ⟨i0, t0, a0, p0⟩ := st
  rw [QbusMqttState.propsReadable] at hp
  rw [QbusMqttState.read_property, QbusMqttState.storedOr]
  dsimp only at hp ⊢
  cases p0 with
  | obj es =>
    cases es with
    | nil => exact rfl
    | cons e es' => exact rfl
  | null => exact rfl
  | bool b =>
    cases b with
    | false => exact rfl
    | true => simp [PyVal.truthy] at hp
  | num n =>
    have hn : n = 0 := by simpa [PyVal.truthy] using hp
    subst hn
    exact rfl
  | str s =>
    have hs : s = "" := by simpa [PyVal.truthy] using hp
    subst hs
    exact rfl
  | arr xs =>
    have hx : xs = [] := by simpa [PyVal.truthy] using hp
    subst hx
    exact rfl

/-! ## Claim theorems -/

/-- C9: for every prefix, device id and output id the topic factory returns
exactly the literal template strings; in particular the output command topic
for the default prefix, device `D1` and output `O2` is
`cloudapp/QBUSMQTTGW/D1/O2/setState`, and the default prefix is
`cloudapp/QBUSMQTTGW`. -/
theorem C9_topic_templates :
    (∀ p, get_get_config_topic p = p ++ "/getConfig") ∧
    (∀ p, get_config_topic p = p ++ "/config") ∧
    (∀ p, get_get_state_topic p = p ++ "/getState") ∧
    (∀ d p, get_device_state_topic d p = p ++ "/" ++ d ++ "/state") ∧
    (∀ d p, get_device_command_topic d p = p ++ "/" ++ d ++ "/setState") ∧
    (∀ d o p, get_output_command_topic d o p = p ++ "/" ++ d ++ "/" ++ o ++ "/setState") ∧
    (∀ d o p, get_output_state_topic d o p = p ++ "/" ++ d ++ "/" ++ o ++ "/state") ∧
    get_output_command_topic "D1" "O2" "cloudapp/QBUSMQTTGW" =
      "cloudapp/QBUSMQTTGW/D1/O2/setState" ∧
    TOPIC_PREFIX = "cloudapp/QBUSMQTTGW" := by
  refine ⟨fun p => rfl, fun p => rfl, fun p => rfl, fun d p => rfl, fun d p => rfl,
    fun d o p => rfl, fun d o p => rfl, ?_, rfl⟩
  decide

/-- C7: `deserialize` returns the no-result sentinel, without raising, for a
`None` payload and for any payload whose text is not valid JSON. -/
theorem C7_no_result {α : Type} (construct : PyVal → Except PyErr α)
    (p : Option String)
    (h : p = none ∨ ∃ s, p = some s ∧ PyVal.parse s = none) :
    deserialize construct p = .ok none := by
  rcases h with rfl | ⟨s, rfl, hs⟩
  · exact rfl
  · rw [deserialize, hs]

theorem C7_witness :
    deserializeState none = .ok none ∧
    deserializeState (some "\x7bnot json") = .ok none :=
  ⟨C7_no_result (fun data => QbusMqttState.init data none none none) none (Or.inl rfl),
   C7_no_result (fun data => QbusMqttState.init data none none none)
     (some "\x7bnot json") (Or.inr ⟨"\x7bnot json", rfl, rfl⟩)⟩

/-- C1 counterexample: `"42"` is a valid JSON payload, so `json.loads`
raises no `ValueError`, but construction calls `.get` on the parsed integer
and the resulting `AttributeError` propagates out of `deserialize` — the
claim that deserialization never propagates a raised failure is false. -/
theorem C1_counterexample :
    deserializeState (some "42") = .error .attributeError := rfl

/-- C1 (amended): deserialization returns without raising whenever the
payload is absent, is not valid JSON, or parses to a JSON object or `null` —
the shapes on which state construction is total. -/
theorem C1_total (p : Option String)
    (h : ∀ s, p = some s → ∀ v, PyVal.parse s = some v → v.objOrNull = true) :
    ∃ r, deserializeState p = .ok r := by
  match p with
  | none => exact ⟨none, rfl⟩
  | some s =>
    match hv : PyVal.parse s with
    | none =>
      refine ⟨none, ?_⟩
      simp only [deserializeState, deserialize, hv]
    | some v =>
      have hvo := h s rfl v hv
      match v, hvo with
      | .null, _ =>
        refine ⟨some ⟨.str "", .str "", .null, .null⟩, ?_⟩
        simp only [deserializeState, deserialize, hv]
        exact rfl
      | .obj es, _ =>
        refine ⟨some ⟨entryGet es "id" (.str ""), entryGet es "type" (.str ""),
          entryGet es "action" .null, entryGet es "properties" .null⟩, ?_⟩
        simp only [deserializeState, deserialize, hv]
        exact rfl
      | .bool b, hvo => simp [PyVal.objOrNull] at hvo
      | .num n, hvo => simp [PyVal.objOrNull] at hvo
      | .str s2, hvo => simp [PyVal.objOrNull] at hvo
      | .arr xs, hvo => simp [PyVal.objOrNull] at hvo

theorem C1_witness : ∃ r, deserializeState (some "\x7b\"id\": 1\x7d") = .ok r :=
  C1_total (some "\x7b\"id\": 1\x7d") (fun s hs v hv => by
    cases hs
    rw [show PyVal.parse "\x7b\"id\": 1\x7d" = some (.obj [("id", .num 1)]) from rfl] at hv
    cases hv
    exact rfl)

/-- C3 counterexample: a mapping entry `"id": null` is stored unchanged, so
`id` holds `None`, not a string — the claim that `id` and `type` are always
strings is false. -/
theorem C3_counterexample :
    QbusMqttState.init (.obj [("id", PyVal.null)]) none none none =
      .ok ⟨PyVal.null, .str "", .null, .null⟩ := rfl

/-- C3 (amended): `id` and `type` default to the empty string when their
keys are absent from the construction mapping and no keyword overrides
them; a mapping entry, however, may store any value there, `None`
included. -/
theorem C3_defaults (es : List (String × PyVal)) (a : Option String)
    (st : QbusMqttState)
    (hid : entryHas es "id" = false) (hty : entryHas es "type" = false)
    (h : QbusMqttState.init (.obj es) none none a = .ok st) :
    st.id = .str "" ∧ st.type = .str "" := by
  simp only [QbusMqttState.init, PyVal.isNull, QbusMqttState.fromData,
    QbusMqttState.applyKw, Bool.false_eq_true, if_false, Except.ok.injEq] at h
  subst h
  refine ⟨?_, ?_⟩
  · show entryGet es KEY_OUTPUT_ID (.str "") = .str ""
    exact entryGet_of_not_has es "id" (.str "") hid
  · show entryGet es KEY_OUTPUT_TYPE (.str "") = .str ""
    exact entryGet_of_not_has es "type" (.str "") hty

theorem C3_witness :
    (⟨.str "", .str "", .str "x", .null⟩ : QbusMqttState).id = .str "" ∧
    (⟨.str "", .str "", .str "x", .null⟩ : QbusMqttState).type = .str "" :=
  C3_defaults [("action", PyVal.str "x")] none
    ⟨.str "", .str "", .str "x", .null⟩ rfl rfl rfl

/-- C10: when a state is constructed from a mapping together with keyword
arguments, each keyword that is not `None` overrides the mapping-derived
value, while a keyword left as `None` leaves the mapping-derived value (or
the default) in place. -/
theorem C10_kwargs_override (es : List (String × PyVal)) (i t a : Option String)
    (st : QbusMqttState)
    (h : QbusMqttState.init (.obj es) i t a = .ok st) :
    st.id = i.elim (entryGet es "id" (.str "")) (fun v => .str v) ∧
    st.type = t.elim (entryGet es "type" (.str "")) (fun v => .str v) ∧
    st.action = a.elim (entryGet es "action" .null) (fun v => .str v) := by
  simp only [QbusMqttState.init, PyVal.isNull, QbusMqttState.fromData,
    QbusMqttState.applyKw, Bool.false_eq_true, if_false, Except.ok.injEq] at h
  subst h
  refine ⟨?_, ?_, ?_⟩
  · cases i <;> exact rfl
  · cases t <;> exact rfl
  · cases a <;> exact rfl

theorem C10_witness :
    (⟨.str "X", .str "", .str "b", .null⟩ : QbusMqttState).id =
      (some "X").elim (entryGet [("id", PyVal.str "a"), ("action", PyVal.str "b")] "id" (.str "")) (fun v => .str v) ∧
    (⟨.str "X", .str "", .str "b", .null⟩ : QbusMqttState).type =
      (none : Option String).elim (entryGet [("id", PyVal.str "a"), ("action", PyVal.str "b")] "type" (.str "")) (fun v => .str v) ∧
    (⟨.str "X", .str "", .str "b", .null⟩ : QbusMqttState).action =
      (none : Option String).elim (entryGet [("id", PyVal.str "a"), ("action", PyVal.str "b")] "action" .null) (fun v => .str v) :=
  C10_kwargs_override [("id", PyVal.str "a"), ("action", PyVal.str "b")]
    (some "X") none none ⟨.str "X", .str "", .str "b", .null⟩ rfl

/-- C4: `parse_discovery` propagates the no-result outcome of
deserialization, rejects a discovery whose device list is empty, and returns
a discovery with at least one device unchanged. -/
theorem C4_parse_discovery_cases (p : Option String) :
    (deserializeDiscovery p = .ok none → parse_discovery p = .ok none) ∧
    (∀ d, deserializeDiscovery p = .ok (some d) → d.devices.length = 0 →
      parse_discovery p = .ok none) ∧
    (∀ d, deserializeDiscovery p = .ok (some d) → d.devices.length ≠ 0 →
      parse_discovery p = .ok (some d)) := by
  refine ⟨fun h => ?_, fun d h hlen => ?_, fun d h hlen => ?_⟩
  · rw [parse_discovery, h]
  · rw [parse_discovery, h]
    show (if d.devices.length = 0 then _ else _) = _
    rw [if_pos hlen]
  · rw [parse_discovery, h]
    show (if d.devices.length = 0 then _ else _) = _
    rw [if_neg hlen]

theorem C4_witness :
    parse_discovery (some "\x7b\"devices\": []\x7d") = .ok none ∧
    parse_discovery (some "\x7b\"devices\": [\x7b\"id\": \"d1\"\x7d]\x7d") =
      .ok (some ⟨[PyVal.obj [("id", PyVal.str "d1")]]⟩) :=
  ⟨(C4_parse_discovery_cases (some "\x7b\"devices\": []\x7d")).2.1 ⟨[]⟩ rfl rfl,
   (C4_parse_discovery_cases (some "\x7b\"devices\": [\x7b\"id\": \"d1\"\x7d]\x7d")).2.2
     ⟨[PyVal.obj [("id", PyVal.str "d1")]]⟩ rfl (by decide)⟩

/-- C8 counterexample: a mapping whose `properties` value is a truthy
non-dictionary (here the number `1`) is stored unchanged, and every typed
accessor then raises `AttributeError` calling `.get` on it — the claim that
accessors never raise on states constructed from a mapping is false. -/
theorem C8_counterexample :
    (QbusMqttState.init (.obj [("properties", PyVal.num 1)]) none none none).bind
      QbusMqttOnOffState.read_value = .error .attributeError := rfl

/-- C8 (amended): on every state whose `properties` is a dictionary or
falsy — in particular any state built from a mapping without a `properties`
entry, or whose entry is a dictionary — each typed accessor returns, without
raising, the value stored at its designated key, or the variant's declared
default when the key (or the whole dictionary) is absent: `False` for the
on/off value, `0` for the analog percentage, `None` for the rest. -/
theorem C8_accessor_reads (es : List (String × PyVal)) (st : QbusMqttState)
    (h : QbusMqttState.init (.obj es) none none none = .ok st)
    (hp : st.propsReadable = true) :
    QbusMqttOnOffState.read_value st = .ok (st.storedOr "value" (.bool false)) ∧
    QbusMqttAnalogState.read_percentage st = .ok (st.storedOr "value" (.num 0)) ∧
    QbusMqttShutterState.read_state st = .ok (st.storedOr "state" .null) ∧
    QbusMqttShutterState.read_position st = .ok (st.storedOr "shutterPosition" .null) ∧
    QbusMqttShutterState.read_slat_position st = .ok (st.storedOr "slatPosition" .null) ∧
    QbusMqttThermoState.read_current_temperature st = .ok (st.storedOr "currTemp" .null) ∧
    QbusMqttThermoState.read_set_temperature st = .ok (st.storedOr "setTemp" .null) ∧
    QbusMqttThermoState.read_regime st = .ok (st.storedOr "currRegime" .null) :=
  ⟨read_property_of_readable st "value" (.bool false) hp,
   read_property_of_readable st "value" (.num 0) hp,
   read_property_of_readable st "state" .null hp,
   read_property_of_readable st "shutterPosition" .null hp,
   read_property_of_readable st "slatPosition" .null hp,
   read_property_of_readable st "currTemp" .null hp,
   read_property_of_readable st "setTemp" .null hp,
   read_property_of_readable st "currRegime" .null hp⟩

theorem C8_witness :
    QbusMqttOnOffState.read_value
        ⟨.str "", .str "", .null, .obj [("value", PyVal.bool true)]⟩ =
      .ok ((⟨.str "", .str "", .null, .obj [("value", PyVal.bool true)]⟩ :
        QbusMqttState).storedOr "value" (.bool false)) :=
  (C8_accessor_reads [("properties", PyVal.obj [("value", PyVal.bool true)])]
    ⟨.str "", .str "", .null, .obj [("value", PyVal.bool true)]⟩ rfl rfl).1

/-- C2 counterexample: a `None` value stored inside the properties
dictionary is emitted as `null` — the encoder's filter runs only on the
instance attributes, never inside the nested dictionary, so the claim that
no `null` appears anywhere in encoded output is false. -/
theorem C2_counterexample :
    serialize ⟨.str "a", .str "t", .null, .obj [("x", PyVal.null)]⟩ =
      "\x7b\"id\": \"a\", \"type\": \"t\", \"properties\": \x7b\"x\": null\x7d\x7d" ∧
    PyVal.hasNull (QbusMqttState.encoded
      ⟨.str "a", .str "t", .null, .obj [("x", PyVal.null)]⟩) = true :=
  ⟨rfl, rfl⟩

/-- C2 (amended): with `action=None` and `properties=None` the encoding
holds exactly the `id` and `type` fields; and the encoded output contains no
`null` anywhere provided, beyond the attribute-level filter, the values
themselves contain none — the filter applies only at the instance-attribute
level, not inside the properties dictionary. -/
theorem C2_encoding (st : QbusMqttState)
    (hidn : st.id.isNull = false) (htyn : st.type.isNull = false) :
    (st.action = .null → st.properties = .null →
      st.encoded = .obj [("id", st.id), ("type", st.type)]) ∧
    (st.id.hasNull = false → st.type.hasNull = false →
      (st.action = .null ∨ st.action.hasNull = false) →
      (st.properties = .null ∨ st.properties.hasNull = false) →
      st.encoded.hasNull = false) := by
  obtain ⟨i0, t0, a0, p0⟩ := st
  dsimp only at hidn htyn
  constructor
  · intro ha hp
    dsimp only at ha hp
    subst ha hp
    simp [QbusMqttState.encoded, dropNoneEntries, hidn, htyn,
      show PyVal.isNull PyVal.null = true from rfl]
  · intro h1 h2 h3 h4
    dsimp only at h1 h2 h3 h4
    rcases h3 with ha | ha <;> rcases h4 with hp | hp
    · subst ha hp
      simp [QbusMqttState.encoded, dropNoneEntries, PyVal.hasNull,
        PyVal.hasNullEntries, h1, h2, hidn, htyn,
        show PyVal.isNull PyVal.null = true from rfl]
    · subst ha
      have hpn := hasNull_false_isNull hp
      simp [QbusMqttState.encoded, dropNoneEntries, PyVal.hasNull,
        PyVal.hasNullEntries, h1, h2, hidn, htyn, hp, hpn,
        show PyVal.isNull PyVal.null = true from rfl]
    · subst hp
      have han := hasNull_false_isNull ha
      simp [QbusMqttState.encoded, dropNoneEntries, PyVal.hasNull,
        PyVal.hasNullEntries, h1, h2, hidn, htyn, ha, han,
        show PyVal.isNull PyVal.null = true from rfl]
    · have han := hasNull_false_isNull ha
      have hpn := hasNull_false_isNull hp
      simp [QbusMqttState.encoded, dropNoneEntries, PyVal.hasNull,
        PyVal.hasNullEntries, h1, h2, hidn, htyn, ha, han, hp, hpn]

theorem C2_witness :
    (⟨.str "a", .str "t", .null, .null⟩ : QbusMqttState).encoded =
      .obj [("id", .str "a"), ("type", .str "t")] ∧
    (⟨.str "a", .str "t", .null, .null⟩ : QbusMqttState).encoded.hasNull = false :=
  ⟨(C2_encoding ⟨.str "a", .str "t", .null, .null⟩ rfl rfl).1 rfl rfl,
   (C2_encoding ⟨.str "a", .str "t", .null, .null⟩ rfl rfl).2 rfl rfl
     (Or.inl rfl) (Or.inl rfl)⟩

/-- C6: for every device id and prefix, the activate request carries the
device command topic and the serialization of a state with `type=action`,
`action=activate` and exactly the `authKey=ubielite` property; with the
default prefix and device `D1` the topic and decoded payload are the
documented literals. -/
theorem C6_activate_request :
    (∀ (d p : String),
      create_device_activate_request ⟨d⟩ p =
        .ok ⟨p ++ "/" ++ d ++ "/setState",
          PyVal.dumps (.obj [("id", .str d), ("type", .str "action"),
            ("action", .str "activate"),
            ("properties", .obj [("authKey", .str "ubielite")])])⟩) ∧
    create_device_activate_request ⟨"D1"⟩ TOPIC_PREFIX =
      .ok ⟨"cloudapp/QBUSMQTTGW/D1/setState",
        "\x7b\"id\": \"D1\", \"type\": \"action\", \"action\": \"activate\", \"properties\": \x7b\"authKey\": \"ubielite\"\x7d\x7d"⟩ ∧
    PyVal.parse
        "\x7b\"id\": \"D1\", \"type\": \"action\", \"action\": \"activate\", \"properties\": \x7b\"authKey\": \"ubielite\"\x7d\x7d" =
      some (.obj [("id", .str "D1"), ("type", .str "action"),
        ("action", .str "activate"), ("properties", .obj [("authKey", .str "ubielite")])]) := by
  refine ⟨fun d p => ?_, ?_, ?_⟩
  · exact rfl
  · exact rfl
  · exact rfl

/-- C5: serializing a state whose fields hold the shapes construction and
the writers produce — string `id` and `type`, string or `None` action,
dictionary or `None` properties, every dictionary with distinct keys as any
value held by the Python runtime has — and then deserializing the output
reproduces every field of the state exactly, nested maps included. -/
theorem C5_round_trip (st : QbusMqttState) (i t : String)
    (hid : st.id = .str i) (hty : st.type = .str t)
    (hact : st.action = .null ∨ ∃ a, st.action = .str a)
    (hpr : st.properties = .null ∨
      ∃ es, st.properties = .obj es ∧ PyVal.wf (.obj es) = true) :
    deserializeState (some (serialize st)) = .ok (some st) := by
  obtain ⟨id0, ty0, act0, pr0⟩ := st
  dsimp only at hid hty hact hpr
  subst hid hty
  rcases hact with hact | ⟨a, hact⟩ <;>
    rcases hpr with hpr | ⟨es, hpr, hwfes⟩ <;> subst hact <;> subst hpr
  · have hwf : PyVal.wf (QbusMqttState.encoded
        ⟨.str i, .str t, PyVal.null, PyVal.null⟩) = true := rfl
    have hp := parse_dumps
      (QbusMqttState.encoded ⟨.str i, .str t, PyVal.null, PyVal.null⟩) hwf
    simp only [deserializeState, deserialize, serialize, hp]
    exact rfl
  · have hwf : PyVal.wf (QbusMqttState.encoded
        ⟨.str i, .str t, PyVal.null, PyVal.obj es⟩) = true := by
      show (PyVal.wf (PyVal.obj es) && true) = true
      rw [hwfes]
      exact rfl
    have hp := parse_dumps
      (QbusMqttState.encoded ⟨.str i, .str t, PyVal.null, PyVal.obj es⟩) hwf
    simp only [deserializeState, deserialize, serialize, hp]
    exact rfl
  · have hwf : PyVal.wf (QbusMqttState.encoded
        ⟨.str i, .str t, PyVal.str a, PyVal.null⟩) = true := rfl
    have hp := parse_dumps
      (QbusMqttState.encoded ⟨.str i, .str t, PyVal.str a, PyVal.null⟩) hwf
    simp only [deserializeState, deserialize, serialize, hp]
    exact rfl
  · have hwf : PyVal.wf (QbusMqttState.encoded
        ⟨.str i, .str t, PyVal.str a, PyVal.obj es⟩) = true := by
      show (PyVal.wf (PyVal.obj es) && true) = true
      rw [hwfes]
      exact rfl
    have hp := parse_dumps
      (QbusMqttState.encoded ⟨.str i, .str t, PyVal.str a, PyVal.obj es⟩) hwf
    simp only [deserializeState, deserialize, serialize, hp]
    exact rfl

theorem C5_witness :
    deserializeState (some (serialize ⟨.str "a", .str "state", .str "on",
      .obj [("value", PyVal.num 5), ("m", PyVal.obj [("k", PyVal.str "v")])]⟩)) =
      .ok (some ⟨.str "a", .str "state", .str "on",
        .obj [("value", PyVal.num 5), ("m", PyVal.obj [("k", PyVal.str "v")])]⟩) :=
  C5_round_trip ⟨.str "a", .str "state", .str "on",
      .obj [("value", PyVal.num 5), ("m", PyVal.obj [("k", PyVal.str "v")])]⟩
    "a" "state" rfl rfl (Or.inr ⟨"on", rfl⟩)
    (Or.inr ⟨[("value", PyVal.num 5), ("m", PyVal.obj [("k", PyVal.str "v")])],
      rfl, rfl⟩)

end QbusSpec
